import Mathlib

/-!
Shallow embedding of the WebServer-Python repository core:
the HTTP message framer (http_parser.py, HTTPParser.parse_message),
the per-connection stream buffer and message pump (server_v1.py,
DataProvider / HTTPProcessor.get_one_http_message / the drain loop of
HTTPSession.handle), the route matcher (RouteMatcher.match_location),
and the per-request dispatch step of HTTPSession.handle.

Bytes are modelled as natural numbers (byte values); a buffer is a
List Nat.  The source decodes header bytes with iso-8859-1, which maps
every byte b to the character of code point b, so decoding is the
identity on code values and string operations are modelled directly on
byte lists.  Python exceptions are modelled with Except: fallible
operations return Except PyError.  Machine integers do not overflow in
the source (Python ints are unbounded), so Int / Nat are used directly.
-/

namespace WS

/-- Byte values of a string literal, used to write concrete buffers.
Under the iso-8859-1 decoding used by the source this is the inverse of
decoding, character by character. -/
def str2bytes (s : String) : List Nat := s.toList.map Char.toNat

/-- Python `str.isspace` for code points below 256 (the set stripped by
`str.strip()` and by `int()`): tab through carriage return, the
file and group separators 28..31, space, next line 0x85, no-break
space 0xA0. -/
def pyIsSpace (c : Nat) : Bool :=
  [9, 10, 11, 12, 13, 28, 29, 30, 31, 32, 133, 160].contains c

/-- Python `str.strip()`: drop whitespace from both ends. -/
def pyStrip (xs : List Nat) : List Nat :=
  ((xs.dropWhile pyIsSpace).reverse.dropWhile pyIsSpace).reverse

/-- Python `str.lower()` restricted to code points below 256: ASCII
uppercase and Latin-1 uppercase letters (0xC0..0xDE except the
multiplication sign 0xD7) shift down by 32. -/
def pyLowerChar (c : Nat) : Nat :=
  if 65 ≤ c ∧ c ≤ 90 then c + 32
  else if 192 ≤ c ∧ c ≤ 222 ∧ c ≠ 215 then c + 32
  else c

/-- Python `str.lower()` on a decoded byte list. -/
def pyLower (xs : List Nat) : List Nat := xs.map pyLowerChar

/-- ASCII decimal digit test (the only digits below 256 accepted by
Python `int()`). -/
def isDigit (c : Nat) : Bool := decide (48 ≤ c ∧ c ≤ 57)

/-- Value of a list of ASCII digit codes. -/
def digitsToNat (l : List Nat) : Nat := l.foldl (fun a c => a * 10 + (c - 48)) 0

/-- Digit-sequence body of a Python integer literal: digits possibly
separated by single underscores; an underscore must sit between two
digits.  Returns the digits with underscores removed. -/
def pyDigitsAux : List Nat → Option (List Nat)
  | [] => some []
  | c :: rest =>
    if isDigit c then (pyDigitsAux rest).map (fun l => c :: l)
    else if c = 95 then
      match rest with
      | d :: rest2 => if isDigit d then (pyDigitsAux rest2).map (fun l => d :: l) else none
      | [] => none
    else none

/-- Unsigned decimal literal accepted by Python `int()`: nonempty,
starts with a digit, underscores only between digits. -/
def pyIntDigits (xs : List Nat) : Option Nat :=
  match xs with
  | [] => none
  | c :: _ => if isDigit c then (pyDigitsAux xs).map digitsToNat else none

/-- Whitespace stripped by Python `int()` for code points below 256:
unlike `str.strip()`, the separators 28..31 are not stripped. -/
def pyIntIsSpace (c : Nat) : Bool :=
  [9, 10, 11, 12, 13, 32, 133, 160].contains c

/-- The whitespace stripping applied by Python `int()`. -/
def pyIntStrip (xs : List Nat) : List Nat :=
  ((xs.dropWhile pyIntIsSpace).reverse.dropWhile pyIntIsSpace).reverse

/-- Python `int(s)` on a decoded byte list: optional surrounding
whitespace, optional sign, decimal digits with underscore grouping.
Returns none exactly when Python raises ValueError. -/
def pyInt (xs : List Nat) : Option Int :=
  match pyIntStrip xs with
  | 43 :: rest => (pyIntDigits rest).map (fun n => (n : Int))
  | 45 :: rest => (pyIntDigits rest).map (fun n => -(n : Int))
  | s => (pyIntDigits s).map (fun n => (n : Int))

/-- Python `xs.startswith(pre)` on byte lists / decoded strings. -/
def startsWith (pre xs : List Nat) : Bool := decide (xs.take pre.length = pre)

/-- Python `xs.find(pat)`: index of the first occurrence of `pat` as a
contiguous sub-list of `xs`, or none (Python returns -1). -/
def find (pat : List Nat) : List Nat → Option Nat
  | [] => if pat = [] then some 0 else none
  | a :: rest =>
    if startsWith pat (a :: rest) then some 0
    else (find pat rest).map (fun i => i + 1)

/-- Python `pat in xs` substring test. -/
def containsSub (pat xs : List Nat) : Bool := (find pat xs).isSome

/-- Python `s.split("\r\n")`: split on every (non-overlapping, leftmost)
occurrence of CR LF, keeping empty pieces.  Always returns at least one
piece. -/
def splitCRLF : List Nat → List (List Nat)
  | 13 :: 10 :: rest => [] :: splitCRLF rest
  | a :: rest =>
    match splitCRLF rest with
    | [] => [[a]]
    | l :: ls => (a :: l) :: ls
  | [] => [[]]

/-- Python `s.split(ch, maxsplit)` for a single-character separator:
split on the leftmost occurrences of `c`, at most `m` times. -/
def pySplitCh (c : Nat) : Nat → List Nat → List (List Nat)
  | 0, xs => [xs]
  | m + 1, xs =>
    if xs.contains c then
      xs.takeWhile (fun b => b != c) :: pySplitCh c m ((xs.dropWhile (fun b => b != c)).tail)
    else [xs]

/-- Python `dict` insertion `d[k] = v` on an insertion-ordered
association list: overwrite in place on an existing key, append
otherwise (last write wins, original position kept). -/
def dictInsert (d : List (List Nat × List Nat)) (k v : List Nat) :
    List (List Nat × List Nat) :=
  match d with
  | [] => [(k, v)]
  | (k2, v2) :: rest => if k2 = k then (k, v) :: rest else (k2, v2) :: dictInsert rest k v

/-- Python `d.get(k)` on the association list. -/
def dictGet (d : List (List Nat × List Nat)) (k : List Nat) : Option (List Nat) :=
  match d with
  | [] => none
  | (k2, v) :: rest => if k2 = k then some v else dictGet rest k

/-- Python slice `xs[:n]` for an arbitrary (possibly negative) integer
bound: a negative bound counts from the end, clamped at 0. -/
def pyTake (xs : List Nat) (n : Int) : List Nat :=
  if n < 0 then xs.take (xs.length - (-n).toNat) else xs.take n.toNat

/-- Python slice `xs[n:]` for an arbitrary (possibly negative) integer
bound: a negative bound counts from the end, clamped at 0. -/
def pyDrop (xs : List Nat) (n : Int) : List Nat :=
  if n < 0 then xs.drop (xs.length - (-n).toNat) else xs.drop n.toNat

/-- The two exception classes of http_parser.py.  Both derive from
Exception directly in the source; neither is a RuntimeError. -/
inductive PyError where
  | incompleteMessage
  | invalidMessage
deriving DecidableEq

/-- HTTPMessage of http_parser.py: method, url, version, headers
(lower-cased names, insertion-ordered dict), body bytes. -/
structure HTTPMessage where
  method : List Nat
  url : List Nat
  version : List Nat
  headers : List (List Nat × List Nat)
  body : List Nat
deriving DecidableEq

/-- Byte codes of "\r\n\r\n", the header terminator searched for by
parse_message (step B). -/
def sep : List Nat := [13, 10, 13, 10]

/-- Byte codes of "content-length". -/
def clKey : List Nat := str2bytes "content-length"

/-- Step E of HTTPParser.parse_message: the header-line loop.  Empty
lines are skipped; a line without a colon raises InvalidMessageError;
otherwise the line is split on the first colon, the name stripped and
lower-cased, the value stripped, and the pair written into the dict. -/
def parseHeaders : List (List Nat) → List (List Nat × List Nat) →
    Except PyError (List (List Nat × List Nat))
  | [], acc => .ok acc
  | line :: rest, acc =>
    if line = [] then parseHeaders rest acc
    else if line.contains 58 then
      parseHeaders rest
        (dictInsert acc
          (pyLower (pyStrip (line.takeWhile (fun b => b != 58))))
          (pyStrip ((line.dropWhile (fun b => b != 58)).tail)))
    else .error .invalidMessage

/-- Step F of HTTPParser.parse_message: body extraction once the start
line and headers parsed.  `data.drop (idx + 4)` is `rest` in the
source; a present content-length is converted with Python int()
(failure raises InvalidMessageError), a short rest raises
IncompleteMessageError, otherwise body = rest[:length] and
consumed = idx + 4 + length; with no content-length the body is empty
and consumed = idx + 4. -/
def finishBody (data : List Nat) (idx : Nat) (method url version : List Nat)
    (headers : List (List Nat × List Nat)) : Except PyError (Option HTTPMessage × Int) :=
  match dictGet headers clKey with
  | some lengthHdr =>
    match pyInt lengthHdr with
    | none => .error .invalidMessage
    | some length =>
      if (((data.drop (idx + 4)).length : Int) < length) then .error .incompleteMessage
      else .ok (some ⟨method, url, version, headers, pyTake (data.drop (idx + 4)) length⟩,
                (idx : Int) + 4 + length)
  | none => .ok (some ⟨method, url, version, headers, []⟩, (idx : Int) + 4)

/-- Steps C..F of HTTPParser.parse_message, after the header terminator
was located at `idx`: split the header block on CRLF, split the start
line on the first two spaces (Python split(" ", 2)); fewer or more than
three parts raises InvalidMessageError; then parse the header lines and
finish with the body. -/
def parseAfterHeaderLoc (data : List Nat) (idx : Nat) :
    Except PyError (Option HTTPMessage × Int) :=
  match pySplitCh 32 2 ((splitCRLF (data.take idx)).headD []) with
  | [method, url, version] =>
    match parseHeaders ((splitCRLF (data.take idx)).tail) [] with
    | .error e => .error e
    | .ok headers => finishBody data idx method url version headers
  | _ => .error .invalidMessage

/-- HTTPParser.parse_message: empty buffer returns (None, 0); a missing
"\r\n\r\n" terminator raises IncompleteMessageError; otherwise the
message is parsed from the header block before the terminator. -/
def parse_message (data : List Nat) : Except PyError (Option HTTPMessage × Int) :=
  if data = [] then .ok (none, 0)
  else
    match find sep data with
    | none => .error .incompleteMessage
    | some idx => parseAfterHeaderLoc data idx

/-- DataProvider of server_v1.py: the per-connection stream buffer. -/
structure DataProvider where
  data : List Nat
deriving DecidableEq

/-- The data.setter of DataProvider: `self._data += new_data`. -/
def DataProvider.setData (dp : DataProvider) (newData : List Nat) : DataProvider :=
  ⟨dp.data ++ newData⟩

/-- DataProvider.reduce_data: `self._data = self._data[size:]`.  The
size is an arbitrary Python int, so negative values use Python slice
semantics. -/
def DataProvider.reduce_data (dp : DataProvider) (size : Int) : DataProvider :=
  ⟨pyDrop dp.data size⟩

/-- The `except RuntimeError` clause of HTTPProcessor.
IncompleteMessageError and InvalidMessageError derive from Exception,
not from RuntimeError, so the clause matches neither. -/
def isRuntimeError (_ : PyError) : Bool := false

/-- HTTPProcessor.get_one_http_message: parse the current buffer; on a
message, consume the reported count and return it; on (None, 0) return
None; an exception propagates unless it is a RuntimeError (which the
parser never raises). -/
def get_one_http_message (dp : DataProvider) :
    Except PyError (DataProvider × Option HTTPMessage) :=
  match parse_message dp.data with
  | .ok (some msg, consumed) => .ok (dp.reduce_data consumed, some msg)
  | .ok (none, _) => .ok (dp, none)
  | .error e => if isRuntimeError e then .ok (dp, none) else .error e

/-- The inner drain loop of HTTPSession.handle:
`while request := self.http_processor.get_one_http_message(): ...`,
collecting the dispatched requests in order.  The loop in the source
has no bound; `fuel` bounds the number of iterations modelled (the
source loop can fail to terminate on a negative consumed count), and
an escaping exception aborts the loop. -/
def drain : DataProvider → Nat → Except PyError (DataProvider × List HTTPMessage)
  | dp, 0 => .ok (dp, [])
  | dp, fuel + 1 =>
    match get_one_http_message dp with
    | .error e => .error e
    | .ok (dp2, none) => .ok (dp2, [])
    | .ok (dp2, some msg) =>
      match drain dp2 fuel with
      | .error e => .error e
      | .ok (dp3, msgs) => .ok (dp3, msg :: msgs)

/-- The loop of RouteMatcher.match_location, with its two accumulators
matched_location and longest (the source initialises longest to -1
and overwrites only on a strictly longer matching path). -/
def matchLoop (uri : List Nat) : List (List Nat × List Nat) → Option (List Nat) → Int →
    Option (List Nat)
  | [], matched, _ => matched
  | (path, rootDir) :: rest, matched, longest =>
    if startsWith path uri && decide ((path.length : Int) > longest) then
      matchLoop uri rest (some rootDir) (path.length : Int)
    else matchLoop uri rest matched longest

/-- RouteMatcher.match_location: longest-prefix match over the
locations table, iterated in insertion order. -/
def match_location (locations : List (List Nat × List Nat)) (uri : List Nat) :
    Option (List Nat) :=
  matchLoop uri locations none (-1)

/-- Byte codes of "connection". -/
def connKey : List Nat := str2bytes "connection"

/-- Byte codes of "keep-alive". -/
def kaBytes : List Nat := str2bytes "keep-alive"

/-- The two response shapes HTTPSession can send for a request: the 200
success response (recording whether the Connection keep-alive header
line was appended) and the 404 response of _send_404. -/
inductive ResponseKind where
  | success (keepAlive : Bool)
  | notFound
deriving DecidableEq

/-- The file path computed by HTTPSession.handle for a request:
root = "html" and url = "/index.html" when the url is "/", otherwise
root = RouteMatcher.match_location(...).  A failed match leaves root =
None and the f-string renders it as the literal "None". -/
def filePath (routes : List (List Nat × List Nat)) (req : HTTPMessage) : List Nat :=
  let url := if req.url = str2bytes "/" then str2bytes "/index.html" else req.url
  let root : Option (List Nat) :=
    if req.url = str2bytes "/" then some (str2bytes "html")
    else match_location routes req.url
  (match root with | some r => r | none => str2bytes "None") ++ url

/-- The per-request body of the drain loop in HTTPSession.handle.
`fs` models the filesystem collaborator: `fs path = some body` when
`open(path)` and read succeed, none when open raises.  On success the
connection header value is lower-cased and searched for "keep-alive";
if absent, `self.active = False`.  On failure _send_404 runs and
active is left unchanged (the keep-alive check sits inside the try
block, after the open). -/
def dispatch (fs : List Nat → Option (List Nat)) (routes : List (List Nat × List Nat))
    (req : HTTPMessage) (active : Bool) : ResponseKind × Bool :=
  match fs (filePath routes req) with
  | some _ =>
    if containsSub kaBytes (pyLower ((dictGet req.headers connKey).getD [])) then
      (.success true, active)
    else (.success false, false)
  | none => (.notFound, active)

/-! Helper lemmas about the byte-string operations. -/

theorem startsWith_iff {pre xs : List Nat} :
    startsWith pre xs = true ↔ xs.take pre.length = pre := by
  simp [startsWith]

theorem startsWith_length_le {pre xs : List Nat} (h : startsWith pre xs = true) :
    pre.length ≤ xs.length := by
  rw [startsWith_iff] at h
  have h2 := congrArg List.length h
  simp only [List.length_take] at h2
  omega

theorem startsWith_append {pre xs : List Nat} (ys : List Nat) (h : pre.length ≤ xs.length) :
    startsWith pre (xs ++ ys) = startsWith pre xs := by
  have h2 : (xs ++ ys).take pre.length = xs.take pre.length := by
    rw [List.take_append_eq_append_take, Nat.sub_eq_zero_of_le h]
    simp
  simp [startsWith, h2]

theorem startsWith_take {pre xs : List Nat} (k : Nat) (h : pre.length ≤ k) :
    startsWith pre (xs.take k) = startsWith pre xs := by
  have h2 : (xs.take k).take pre.length = xs.take pre.length := by
    rw [List.take_take, Nat.min_eq_left h]
  simp [startsWith, h2]

theorem find_eq_none_of_lt {pat xs : List Nat} (h : xs.length < pat.length) :
    find pat xs = none := by
  induction xs with
  | nil =>
    have hne : pat ≠ [] := by
      intro he
      subst he
      simp at h
    simp [find, hne]
  | cons a rest ih =>
    have h1 : ¬ startsWith pat (a :: rest) = true := by
      intro hs
      have := startsWith_length_le hs
      omega
    have h2 : rest.length < pat.length := by
      simp at h
      omega
    simp [find, h1, ih h2]

theorem find_bound {pat xs : List Nat} {i : Nat} (h : find pat xs = some i) :
    i + pat.length ≤ xs.length := by
  induction xs generalizing i with
  | nil =>
    by_cases hp : pat = []
    · subst hp
      simp [find] at h
      simp [← h]
    · simp [find, hp] at h
  | cons a rest ih =>
    by_cases hs : startsWith pat (a :: rest) = true
    · simp [find, hs] at h
      have := startsWith_length_le hs
      omega
    · simp [find, hs] at h
      obtain ⟨j, hj, hji⟩ := h
      have := ih hj
      simp only [List.length_cons]
      omega

theorem find_append {pat b : List Nat} {idx : Nat} (hp : pat ≠ [])
    (h : find pat b = some idx) (r : List Nat) : find pat (b ++ r) = some idx := by
  induction b generalizing idx with
  | nil => simp [find, hp] at h
  | cons a rest ih =>
    by_cases hs : startsWith pat (a :: rest) = true
    · simp [find, hs] at h
      have h2 : startsWith pat (a :: (rest ++ r)) = startsWith pat (a :: rest) := by
        have h3 := @startsWith_append pat (a :: rest) r (startsWith_length_le hs)
        rwa [List.cons_append] at h3
      simp [find, h2, hs, ← h]
    · simp [find, hs] at h
      obtain ⟨j, hj, hji⟩ := h
      have hlen : pat.length ≤ (a :: rest).length := by
        have := find_bound hj
        simp only [List.length_cons]
        omega
      have h2 : startsWith pat (a :: (rest ++ r)) = startsWith pat (a :: rest) := by
        have h3 := @startsWith_append pat (a :: rest) r hlen
        rwa [List.cons_append] at h3
      simp [find, h2, hs, ih hj, hji]

theorem startsWith_cons_take {pat : List Nat} {a : Nat} {rest : List Nat} {k : Nat}
    (hs : ¬ startsWith pat (a :: rest) = true) :
    ¬ startsWith pat (a :: rest.take k) = true := by
  intro hcon
  by_cases hlen : pat.length ≤ k + 1
  · have he : (a :: rest.take k) = (a :: rest).take (k + 1) := by
      rw [List.take_succ_cons]
    rw [he, startsWith_take _ hlen] at hcon
    exact hs hcon
  · have h2 := startsWith_length_le hcon
    simp only [List.length_cons, List.length_take] at h2
    omega

theorem find_take_none {pat data : List Nat} {idx : Nat} (h : find pat data = some idx)
    {k : Nat} (hk : k < idx + pat.length) : find pat (data.take k) = none := by
  induction data generalizing idx k with
  | nil =>
    by_cases hp : pat = []
    · subst hp
      simp [find] at h
      simp only [List.length_nil] at hk
      omega
    · simp [find, hp] at h
  | cons a rest ih =>
    by_cases hs : startsWith pat (a :: rest) = true
    · simp [find, hs] at h
      apply find_eq_none_of_lt
      simp only [List.length_take, List.length_cons]
      omega
    · simp [find, hs] at h
      obtain ⟨j, hj, hji⟩ := h
      have hpne : pat ≠ [] := by
        intro he
        subst he
        exact hs (by simp [startsWith])
      match k with
      | 0 => simp [find, hpne]
      | k' + 1 =>
        rw [List.take_succ_cons]
        have h2 := @startsWith_cons_take pat a rest k' hs
        have h3 : find pat (rest.take k') = none := ih hj (by omega)
        simp [find, h2, h3]

theorem find_take_some {pat data : List Nat} {idx : Nat} (h : find pat data = some idx)
    {k : Nat} (hk : idx + pat.length ≤ k) (hp : 0 < pat.length) :
    find pat (data.take k) = some idx := by
  induction data generalizing idx k with
  | nil =>
    have hpne : pat ≠ [] := by
      intro he
      subst he
      simp at hp
    simp [find, hpne] at h
  | cons a rest ih =>
    by_cases hs : startsWith pat (a :: rest) = true
    · simp [find, hs] at h
      match k with
      | 0 => omega
      | k' + 1 =>
        rw [List.take_succ_cons]
        have h2 : startsWith pat (a :: rest.take k') = true := by
          have he : (a :: rest.take k') = (a :: rest).take (k' + 1) := by
            rw [List.take_succ_cons]
          rw [he, startsWith_take _ (by omega)]
          exact hs
        simp [find, h2, ← h]
    · simp [find, hs] at h
      obtain ⟨j, hj, hji⟩ := h
      match k with
      | 0 => omega
      | k' + 1 =>
        rw [List.take_succ_cons]
        have h2 := @startsWith_cons_take pat a rest k' hs
        have h3 : find pat (rest.take k') = some j := ih hj (by omega)
        simp [find, h2, h3, hji]

/-! Builder and inversion lemmas for the layers of parse_message. -/

theorem sep_ne_nil : sep ≠ [] := by decide

theorem sep_length : sep.length = 4 := rfl

theorem ne_nil_of_find_eq_some {data : List Nat} {idx : Nat}
    (h : find sep data = some idx) : data ≠ [] := by
  intro he
  subst he
  simp [find, sep_ne_nil] at h

theorem take_ne_nil_of_pos {data : List Nat} {k : Nat} (hd : data ≠ []) (hk : 0 < k) :
    data.take k ≠ [] := by
  match data, k with
  | [], _ => exact absurd rfl hd
  | a :: rest, k' + 1 => simp

theorem parse_build {data : List Nat} {idx : Nat} (h : find sep data = some idx) :
    parse_message data = parseAfterHeaderLoc data idx := by
  rw [parse_message, if_neg (ne_nil_of_find_eq_some h), h]

theorem parse_incomplete_of_find_none {data : List Nat} (hd : data ≠ [])
    (h : find sep data = none) : parse_message data = .error .incompleteMessage := by
  rw [parse_message, if_neg hd, h]

theorem parseAfter_build {data : List Nat} {idx : Nat} {m u v : List Nat}
    {H : List (List Nat × List Nat)}
    (h2 : pySplitCh 32 2 ((splitCRLF (data.take idx)).headD []) = [m, u, v])
    (h3 : parseHeaders ((splitCRLF (data.take idx)).tail) [] = .ok H) :
    parseAfterHeaderLoc data idx = finishBody data idx m u v H := by
  rw [parseAfterHeaderLoc, h2, h3]

theorem parseAfter_invalid_of_parts {data : List Nat} {idx : Nat}
    (h2 : (pySplitCh 32 2 ((splitCRLF (data.take idx)).headD [])).length ≠ 3) :
    parseAfterHeaderLoc data idx = .error .invalidMessage := by
  rw [parseAfterHeaderLoc]
  match hp : pySplitCh 32 2 ((splitCRLF (data.take idx)).headD []) with
  | [] => rfl
  | [_] => rfl
  | [_, _] => rfl
  | [_, _, _] => rw [hp] at h2; simp at h2
  | _ :: _ :: _ :: _ :: _ => rfl

theorem parse_ok_some_elim {data : List Nat} {M : HTTPMessage} {c : Int}
    (h : parse_message data = .ok (some M, c)) :
    ∃ idx, find sep data = some idx ∧ parseAfterHeaderLoc data idx = .ok (some M, c) := by
  rw [parse_message] at h
  split at h
  · simp at h
  · match hf : find sep data with
    | none => rw [hf] at h; simp at h
    | some idx => rw [hf] at h; exact ⟨idx, rfl, h⟩

theorem parseAfter_ok_elim {data : List Nat} {idx : Nat} {M : HTTPMessage} {c : Int}
    (h : parseAfterHeaderLoc data idx = .ok (some M, c)) :
    ∃ m u v H, pySplitCh 32 2 ((splitCRLF (data.take idx)).headD []) = [m, u, v] ∧
      parseHeaders ((splitCRLF (data.take idx)).tail) [] = .ok H ∧
      finishBody data idx m u v H = .ok (some M, c) := by
  rw [parseAfterHeaderLoc] at h
  match hp : pySplitCh 32 2 ((splitCRLF (data.take idx)).headD []) with
  | [] => rw [hp] at h; simp at h
  | [_] => rw [hp] at h; simp at h
  | [_, _] => rw [hp] at h; simp at h
  | [m, u, v] =>
    rw [hp] at h
    match hh : parseHeaders ((splitCRLF (data.take idx)).tail) [] with
    | .error e => rw [hh] at h; simp at h
    | .ok H => rw [hh] at h; exact ⟨m, u, v, H, rfl, rfl, h⟩
  | _ :: _ :: _ :: _ :: _ => rw [hp] at h; simp at h

theorem finishBody_ok_elim {data : List Nat} {idx : Nat} {m u v : List Nat}
    {H : List (List Nat × List Nat)} {M : HTTPMessage} {c : Int}
    (h : finishBody data idx m u v H = .ok (some M, c)) :
    (dictGet H clKey = none ∧ M = ⟨m, u, v, H, []⟩ ∧ c = (idx : Int) + 4) ∨
    (∃ s L, dictGet H clKey = some s ∧ pyInt s = some L ∧
      ¬ (((data.drop (idx + 4)).length : Int) < L) ∧
      M = ⟨m, u, v, H, pyTake (data.drop (idx + 4)) L⟩ ∧ c = (idx : Int) + 4 + L) := by
  rw [finishBody] at h
  match hg : dictGet H clKey with
  | none =>
    simp only [hg] at h
    simp at h
    exact .inl ⟨rfl, h.1.symm, h.2.symm⟩
  | some s =>
    simp only [hg] at h
    match hi : pyInt s with
    | none => simp only [hi] at h; simp at h
    | some L =>
      simp only [hi] at h
      split at h
      · simp at h
      · simp at h
        exact .inr ⟨s, L, rfl, hi, by assumption, h.1.symm, h.2.symm⟩

/-! Claim theorems. -/

/-- C1, counterexample.  The claim says every parser error signal is
absorbed by the pump as "no message yet".  On the buffer "GET" the
parse raises IncompleteMessageError, and the except clause of
get_one_http_message catches only RuntimeError, which
IncompleteMessageError is not: the exception escapes the pump instead
of being returned as None. -/
theorem c1_counterexample :
    get_one_http_message ⟨str2bytes "GET"⟩ = .error .incompleteMessage ∧
    get_one_http_message ⟨str2bytes "GET"⟩ ≠ .ok (⟨str2bytes "GET"⟩, none) := by
  have hok : get_one_http_message ⟨str2bytes "GET"⟩ = .error .incompleteMessage := rfl
  refine ⟨hok, ?_⟩
  rw [hok]
  intro h
  exact Except.noConfusion h

/-- C1 (amended).  On Empty (parse returns (None, 0), which happens on
the empty buffer) the pump returns None and consumes nothing.  A parser
error (Incomplete or Invalid) is not absorbed: it escapes
get_one_http_message unchanged, because the except clause matches only
RuntimeError and neither parser exception derives from RuntimeError,
and it likewise aborts the drain loop; no bytes are consumed in either
case (the DataProvider is returned untouched). -/
theorem c1_pump_error_propagation (dp : DataProvider) :
    (parse_message dp.data = .ok (none, 0) → get_one_http_message dp = .ok (dp, none)) ∧
    (∀ e, parse_message dp.data = .error e →
      get_one_http_message dp = .error e ∧ ∀ fuel, drain dp (fuel + 1) = .error e) := by
  constructor
  · intro h
    rw [get_one_http_message]
    simp only [h]
  · intro e h
    have hg : get_one_http_message dp = .error e := by
      rw [get_one_http_message]
      simp only [h]
      simp [isRuntimeError]
    exact ⟨hg, fun fuel => by rw [drain]; simp only [hg]⟩

/-- Witness for C1 (amended): on the empty buffer the parse yields
(None, 0) and the pump returns None with the buffer untouched. -/
theorem c1_pump_error_propagation_witness :
    get_one_http_message ⟨[]⟩ = .ok (⟨[]⟩, none) :=
  (c1_pump_error_propagation ⟨[]⟩).1 rfl

/-- C4, counterexample.  The value "-1" is not a non-negative decimal
integer, yet parse_message returns Complete (Python int accepts the
sign): on "GET / HTTP/1.1\r\ncontent-length: -1\r\n\r\n" the result is
a message with empty body and consumed count 34 + 4 + (-1) = 37, not
InvalidMessageError. -/
theorem c4_counterexample :
    parse_message (str2bytes "GET / HTTP/1.1\r\ncontent-length: -1\r\n\r\n") =
      .ok (some ⟨str2bytes "GET", str2bytes "/", str2bytes "HTTP/1.1",
        [(str2bytes "content-length", str2bytes "-1")], []⟩, 37) ∧
    pyInt (str2bytes "-1") = some (-1) ∧
    parse_message (str2bytes "GET / HTTP/1.1\r\ncontent-length: -1\r\n\r\n") ≠
      .error .invalidMessage := by
  have hok : parse_message (str2bytes "GET / HTTP/1.1\r\ncontent-length: -1\r\n\r\n") =
      .ok (some ⟨str2bytes "GET", str2bytes "/", str2bytes "HTTP/1.1",
        [(str2bytes "content-length", str2bytes "-1")], []⟩, 37) := rfl
  refine ⟨hok, rfl, ?_⟩
  rw [hok]
  intro h
  exact Except.noConfusion h

/-- C4 (amended).  If the content-length value of a fully received,
otherwise well-formed header block does not parse as a Python integer
(optional whitespace, optional sign, underscore-grouped decimal
digits), parse_message yields Invalid; a numeric but negative value,
however, is accepted rather than rejected. -/
theorem c4_nonnumeric_length_invalid (data : List Nat) (idx : Nat) (m u v : List Nat)
    (H : List (List Nat × List Nat)) (s : List Nat)
    (h1 : find sep data = some idx)
    (h2 : pySplitCh 32 2 ((splitCRLF (data.take idx)).headD []) = [m, u, v])
    (h3 : parseHeaders ((splitCRLF (data.take idx)).tail) [] = .ok H)
    (h4 : dictGet H clKey = some s)
    (h5 : pyInt s = none) :
    parse_message data = .error .invalidMessage := by
  rw [parse_build h1, parseAfter_build h2 h3, finishBody]
  simp only [h4, h5]

/-- Witness for C4 (amended): a content-length value "abc" yields
InvalidMessageError. -/
theorem c4_nonnumeric_length_invalid_witness :
    parse_message (str2bytes "GET / HTTP/1.1\r\ncontent-length: abc\r\n\r\n") =
      .error .invalidMessage :=
  c4_nonnumeric_length_invalid
    (str2bytes "GET / HTTP/1.1\r\ncontent-length: abc\r\n\r\n") 35
    (str2bytes "GET") (str2bytes "/") (str2bytes "HTTP/1.1")
    [(str2bytes "content-length", str2bytes "abc")] (str2bytes "abc")
    rfl rfl rfl rfl rfl

/-- C5, counterexample.  The claim says a start line that does not
consist of exactly three whitespace-delimited fields is Invalid, but
the source splits on the first two spaces only (split(" ", 2)): the
four-field start line "GET / HTTP/1.1 x" is accepted as Complete with
version "HTTP/1.1 x". -/
theorem c5_counterexample :
    parse_message (str2bytes "GET / HTTP/1.1 x\r\n\r\n") =
      .ok (some ⟨str2bytes "GET", str2bytes "/", str2bytes "HTTP/1.1 x", [], []⟩,
        20) ∧
    parse_message (str2bytes "GET / HTTP/1.1 x\r\n\r\n") ≠ .error .invalidMessage := by
  have hok : parse_message (str2bytes "GET / HTTP/1.1 x\r\n\r\n") =
      .ok (some ⟨str2bytes "GET", str2bytes "/", str2bytes "HTTP/1.1 x", [], []⟩,
        20) := rfl
  refine ⟨hok, ?_⟩
  rw [hok]
  intro h
  exact Except.noConfusion h

/-- C5 (amended).  With a complete header block located at `idx`,
parse_message yields Invalid exactly when splitting the start line on
its first two spaces does not produce three parts (that is, when the
start line contains fewer than two space characters); a start line
with two or more spaces is accepted, its third field being everything
after the second space, spaces included. -/
theorem c5_start_line_two_splits (data : List Nat) (idx : Nat)
    (h1 : find sep data = some idx)
    (h2 : (pySplitCh 32 2 ((splitCRLF (data.take idx)).headD [])).length ≠ 3) :
    parse_message data = .error .invalidMessage := by
  rw [parse_build h1]
  exact parseAfter_invalid_of_parts h2

/-- Witness for C5 (amended): the two-field start line "GET /" yields
InvalidMessageError, never Incomplete. -/
theorem c5_start_line_two_splits_witness :
    parse_message (str2bytes "GET /\r\n\r\n") = .error .invalidMessage :=
  c5_start_line_two_splits (str2bytes "GET /\r\n\r\n") 5 rfl (by decide)

/-- C2.  For a buffer whose header terminator sits at `idx` (so the
header block is data.take idx and `rest` is data.drop (idx + 4)), with
a well-formed start line and header lines, and a content-length header
whose value parses as a non-negative integer L: fewer than L bytes of
rest yields Incomplete (an exception, so nothing is consumed); at
least L bytes yields Complete with body exactly the first L bytes of
rest and consumed count idx + 4 + L; and with no content-length header
the body is empty and the consumed count is idx + 4. -/
theorem c2_content_length_framing (data : List Nat) (idx : Nat) (m u v : List Nat)
    (H : List (List Nat × List Nat))
    (h1 : find sep data = some idx)
    (h2 : pySplitCh 32 2 ((splitCRLF (data.take idx)).headD []) = [m, u, v])
    (h3 : parseHeaders ((splitCRLF (data.take idx)).tail) [] = .ok H) :
    (∀ s L, dictGet H clKey = some s → pyInt s = some L → 0 ≤ L →
      ((((data.drop (idx + 4)).length : Int) < L →
         parse_message data = .error .incompleteMessage) ∧
       (L ≤ ((data.drop (idx + 4)).length : Int) →
         parse_message data =
           .ok (some ⟨m, u, v, H, (data.drop (idx + 4)).take L.toNat⟩,
             (idx : Int) + 4 + L)))) ∧
    (dictGet H clKey = none →
      parse_message data = .ok (some ⟨m, u, v, H, []⟩, (idx : Int) + 4)) := by
  have hb : parse_message data = finishBody data idx m u v H := by
    rw [parse_build h1, parseAfter_build h2 h3]
  constructor
  · intro s L hs hL hL0
    constructor
    · intro hlt
      rw [hb, finishBody]
      simp only [hs, hL]
      rw [if_pos hlt]
    · intro hge
      rw [hb, finishBody]
      simp only [hs, hL]
      rw [if_neg (not_lt.mpr hge)]
      have hbody : pyTake (data.drop (idx + 4)) L = (data.drop (idx + 4)).take L.toNat := by
        rw [pyTake, if_neg (not_lt.mpr hL0)]
      rw [hbody]
  · intro hnone
    rw [hb, finishBody]
    simp only [hnone]

/-- Witness for C2: a POST with content-length 5 followed by exactly 5
body bytes parses Complete with body "HELLO" and consumed
34 + 4 + 5. -/
theorem c2_content_length_framing_witness :
    parse_message (str2bytes "POST / HTTP/1.1\r\ncontent-length: 5\r\n\r\nHELLO") =
      .ok (some ⟨str2bytes "POST", str2bytes "/", str2bytes "HTTP/1.1",
        [(str2bytes "content-length", str2bytes "5")], str2bytes "HELLO"⟩,
        (34 : Int) + 4 + 5) := by
  have h := (((c2_content_length_framing
    (str2bytes "POST / HTTP/1.1\r\ncontent-length: 5\r\n\r\nHELLO") 34
    (str2bytes "POST") (str2bytes "/") (str2bytes "HTTP/1.1")
    [(str2bytes "content-length", str2bytes "5")]
    rfl rfl rfl).1 (str2bytes "5") 5 rfl rfl (by decide)).2 (by decide))
  exact h

/-- C3.  Incremental-delivery invariance: if a buffer parses Complete
with a consumed count equal to its whole length L (it is the
serialized form of one complete message M), then every strict nonempty
prefix (any split point 0 < k < L) parses Incomplete, and the full
buffer parses to exactly M with consumed = L. -/
theorem c3_incremental_delivery (data : List Nat) (M : HTTPMessage) (c : Int) (k : Nat)
    (h : parse_message data = .ok (some M, c)) (hfull : c = (data.length : Int))
    (hk0 : 0 < k) (hk : k < data.length) :
    parse_message (data.take k) = .error .incompleteMessage ∧
    parse_message data = .ok (some M, (data.length : Int)) := by
  subst hfull
  refine ⟨?_, h⟩
  obtain ⟨idx, hfind, hafter⟩ := parse_ok_some_elim h
  obtain ⟨m, u, v, H, hsplit, hH, hfin⟩ := parseAfter_ok_elim hafter
  have hdata : data ≠ [] := ne_nil_of_find_eq_some hfind
  have hidx4 : idx + 4 ≤ data.length := by
    have := find_bound hfind
    rw [sep_length] at this
    omega
  have htk : data.take k ≠ [] := take_ne_nil_of_pos hdata hk0
  rcases finishBody_ok_elim hfin with ⟨hnone, hM, hc⟩ | ⟨s, L, hs, hL, hnlt, hM, hc⟩
  · -- no content-length header: consumed = idx + 4 = data.length, so k < idx + 4
    have hlen : data.length = idx + 4 := by exact_mod_cast hc
    exact parse_incomplete_of_find_none htk
      (find_take_none hfind (by rw [sep_length]; omega))
  · -- content-length L: consumed = idx + 4 + L = data.length
    have hrest : (data.drop (idx + 4)).length = data.length - (idx + 4) :=
      List.length_drop _ _
    have hLval : L = ((data.length - (idx + 4) : Nat) : Int) := by omega
    by_cases hcase : k < idx + 4
    · exact parse_incomplete_of_find_none htk
        (find_take_none hfind (by rw [sep_length]; omega))
    · have hge : idx + 4 ≤ k := by omega
      have hfind2 : find sep (data.take k) = some idx :=
        find_take_some hfind (by rw [sep_length]; omega) (by rw [sep_length]; omega)
      rw [parse_build hfind2]
      have htake : (data.take k).take idx = data.take idx := by
        rw [List.take_take, Nat.min_eq_left (by omega)]
      have hsplit2 : pySplitCh 32 2 ((splitCRLF ((data.take k).take idx)).headD []) =
          [m, u, v] := by rw [htake]; exact hsplit
      have hH2 : parseHeaders ((splitCRLF ((data.take k).take idx)).tail) [] = .ok H := by
        rw [htake]; exact hH
      rw [parseAfter_build hsplit2 hH2, finishBody]
      simp only [hs, hL]
      have hlen2 : ((data.take k).drop (idx + 4)).length = k - (idx + 4) := by
        rw [List.length_drop, List.length_take]
        omega
      rw [if_pos (by rw [hlen2]; omega)]

/-- Witness for C3: the 18-byte request "GET / HTTP/1.1\r\n\r\n" parses
fully consuming; its 7-byte prefix parses Incomplete. -/
theorem c3_incremental_delivery_witness :
    parse_message ((str2bytes "GET / HTTP/1.1\r\n\r\n").take 7) =
      .error .incompleteMessage ∧
    parse_message (str2bytes "GET / HTTP/1.1\r\n\r\n") =
      .ok (some ⟨str2bytes "GET", str2bytes "/", str2bytes "HTTP/1.1", [], []⟩,
        ((str2bytes "GET / HTTP/1.1\r\n\r\n").length : Int)) :=
  c3_incremental_delivery (str2bytes "GET / HTTP/1.1\r\n\r\n")
    ⟨str2bytes "GET", str2bytes "/", str2bytes "HTTP/1.1", [], []⟩
    ((14 : Int) + 4) 7 rfl (by decide) (by decide) (by decide)

theorem parse_append_full {b : List Nat} {m : HTTPMessage}
    (h : parse_message b = .ok (some m, (b.length : Int))) (r : List Nat) :
    parse_message (b ++ r) = .ok (some m, (b.length : Int)) := by
  obtain ⟨idx, hfind, hafter⟩ := parse_ok_some_elim h
  obtain ⟨mm, u, v, H, hsplit, hH, hfin⟩ := parseAfter_ok_elim hafter
  have hidx4 : idx + 4 ≤ b.length := by
    have := find_bound hfind
    rw [sep_length] at this
    omega
  have hfind2 : find sep (b ++ r) = some idx := find_append sep_ne_nil hfind r
  rw [parse_build hfind2]
  have htake : (b ++ r).take idx = b.take idx := by
    rw [List.take_append_eq_append_take, Nat.sub_eq_zero_of_le (by omega)]
    simp
  have hsplit2 : pySplitCh 32 2 ((splitCRLF ((b ++ r).take idx)).headD []) =
      [mm, u, v] := by rw [htake]; exact hsplit
  have hH2 : parseHeaders ((splitCRLF ((b ++ r).take idx)).tail) [] = .ok H := by
    rw [htake]; exact hH
  rw [parseAfter_build hsplit2 hH2, finishBody]
  have hdrop : (b ++ r).drop (idx + 4) = b.drop (idx + 4) ++ r := by
    rw [List.drop_append_eq_append_drop, Nat.sub_eq_zero_of_le hidx4, List.drop_zero]
  have hrlen : (b.drop (idx + 4)).length = b.length - (idx + 4) := List.length_drop _ _
  rcases finishBody_ok_elim hfin with ⟨hnone, hM, hc⟩ | ⟨s, L, hs, hL, hnlt, hM, hc⟩
  · simp only [hnone]
    rw [hM, hc]
  · simp only [hs, hL]
    rw [hdrop]
    have hLval : L = ((b.length - (idx + 4) : Nat) : Int) := by omega
    have hlen2 : (b.drop (idx + 4) ++ r).length =
        (b.drop (idx + 4)).length + r.length := List.length_append _ _
    rw [if_neg (by rw [hlen2]; push_cast; omega)]
    have hL0 : (0 : Int) ≤ L := by omega
    have htn : L.toNat = (b.drop (idx + 4)).length := by omega
    have hbody : pyTake (b.drop (idx + 4) ++ r) L = pyTake (b.drop (idx + 4)) L := by
      rw [pyTake, pyTake, if_neg (not_lt.mpr hL0), if_neg (not_lt.mpr hL0), htn,
        List.take_left, List.take_length]
    rw [hbody, hM, hc]

theorem get_one_step {b : List Nat} {m : HTTPMessage}
    (h : parse_message b = .ok (some m, (b.length : Int))) (r : List Nat) :
    get_one_http_message ⟨b ++ r⟩ = .ok (⟨r⟩, some m) := by
  rw [get_one_http_message]
  simp only [parse_append_full h r]
  have hred : pyDrop (b ++ r) ((b.length : Nat) : Int) = r := by
    rw [pyDrop, if_neg (by omega)]
    have : ((b.length : Nat) : Int).toNat = b.length := by omega
    rw [this, List.drop_left]
  simp [DataProvider.reduce_data, hred]

theorem drain_all (pairs : List (List Nat × HTTPMessage))
    (h : ∀ p ∈ pairs, parse_message p.1 = .ok (some p.2, (p.1.length : Int))) :
    drain ⟨(pairs.map Prod.fst).flatten⟩ pairs.length = .ok (⟨[]⟩, pairs.map Prod.snd) := by
  induction pairs with
  | nil => rfl
  | cons p rest ih =>
    have hp := h p (by simp)
    have hrest : ∀ q ∈ rest, parse_message q.1 = .ok (some q.2, (q.1.length : Int)) :=
      fun q hq => h q (by simp [hq])
    simp only [List.map_cons, List.flatten, List.length_cons]
    rw [drain]
    simp only [get_one_step hp ((rest.map Prod.fst).flatten)]
    rw [ih hrest]

/-- C6.  Pipelined drain preserves order: a step of the pump on a
buffer that starts with the full serialization of one message returns
that message and consumes exactly its length; consequently, when the
stream buffer is the concatenation of n complete messages, n
successive get_one_http_message calls of one drain return exactly
those n messages in buffer order (the loop body of HTTPSession.handle
dispatches each message as it is extracted, hence in the same
order), ending with an empty buffer. -/
theorem c6_pipelined_drain (pairs : List (List Nat × HTTPMessage))
    (h : ∀ p ∈ pairs, parse_message p.1 = .ok (some p.2, (p.1.length : Int))) :
    (∀ b msg r, parse_message b = .ok (some msg, (b.length : Int)) →
      get_one_http_message ⟨b ++ r⟩ = .ok (⟨r⟩, some msg)) ∧
    drain ⟨(pairs.map Prod.fst).flatten⟩ pairs.length = .ok (⟨[]⟩, pairs.map Prod.snd) :=
  ⟨fun _ _ r hb => get_one_step hb r, drain_all pairs h⟩

/-- Witness for C6: two pipelined keep-alive GET requests delivered in
one buffer are both extracted, in order, by one drain. -/
theorem c6_pipelined_drain_witness :
    drain ⟨([(str2bytes "GET /a HTTP/1.1\r\nconnection: keep-alive\r\n\r\n",
        (⟨str2bytes "GET", str2bytes "/a", str2bytes "HTTP/1.1",
          [(str2bytes "connection", str2bytes "keep-alive")], []⟩ : HTTPMessage)),
      (str2bytes "GET /b HTTP/1.1\r\nconnection: keep-alive\r\n\r\n",
        (⟨str2bytes "GET", str2bytes "/b", str2bytes "HTTP/1.1",
          [(str2bytes "connection", str2bytes "keep-alive")], []⟩ : HTTPMessage))].map
        Prod.fst).flatten⟩ 2 =
      .ok (⟨[]⟩,
        [⟨str2bytes "GET", str2bytes "/a", str2bytes "HTTP/1.1",
          [(str2bytes "connection", str2bytes "keep-alive")], []⟩,
         ⟨str2bytes "GET", str2bytes "/b", str2bytes "HTTP/1.1",
          [(str2bytes "connection", str2bytes "keep-alive")], []⟩]) := by
  have h := (c6_pipelined_drain
    [(str2bytes "GET /a HTTP/1.1\r\nconnection: keep-alive\r\n\r\n",
        ⟨str2bytes "GET", str2bytes "/a", str2bytes "HTTP/1.1",
          [(str2bytes "connection", str2bytes "keep-alive")], []⟩),
     (str2bytes "GET /b HTTP/1.1\r\nconnection: keep-alive\r\n\r\n",
        ⟨str2bytes "GET", str2bytes "/b", str2bytes "HTTP/1.1",
          [(str2bytes "connection", str2bytes "keep-alive")], []⟩)]
    (by
      intro p hp
      rcases List.mem_cons.mp hp with rfl | hp2
      · rfl
      · rcases List.mem_cons.mp hp2 with rfl | hp3
        · rfl
        · simp at hp3)).2
  exact h

theorem matchLoop_stable (uri : List Nat) (locs : List (List Nat × List Nat))
    (matched : Option (List Nat)) (longest : Int)
    (h : ∀ p ∈ locs, startsWith p.1 uri = true → (p.1.length : Int) ≤ longest) :
    matchLoop uri locs matched longest = matched := by
  induction locs with
  | nil => rfl
  | cons p rest ih =>
    obtain ⟨path, rootDir⟩ := p
    rw [matchLoop]
    have hcond : ¬ ((startsWith path uri && decide ((path.length : Int) > longest)) = true) := by
      intro hc
      rw [Bool.and_eq_true] at hc
      obtain ⟨hsw, hgt⟩ := hc
      have h1 : (path.length : Int) ≤ longest := h (path, rootDir) (by simp) hsw
      have h2 := of_decide_eq_true hgt
      omega
    rw [if_neg hcond]
    exact ih (fun q hq => h q (by simp [hq]))

theorem matchLoop_picks (uri : List Nat) (locs : List (List Nat × List Nat))
    (k r : List Nat) (matched : Option (List Nat)) (longest : Int)
    (hmem : (k, r) ∈ locs) (hpre : startsWith k uri = true)
    (hmax : ∀ p ∈ locs, p ≠ (k, r) → startsWith p.1 uri = true →
      (p.1.length : Int) < (k.length : Int))
    (hl : longest < (k.length : Int)) :
    matchLoop uri locs matched longest = some r := by
  induction locs generalizing matched longest with
  | nil => simp at hmem
  | cons p rest ih =>
    obtain ⟨path, rootDir⟩ := p
    by_cases heq : (path, rootDir) = (k, r)
    · rw [Prod.mk.injEq] at heq
      obtain ⟨rfl, rfl⟩ := heq
      rw [matchLoop]
      have hcond : (startsWith path uri && decide ((path.length : Int) > longest)) = true := by
        rw [hpre, decide_eq_true hl]
        rfl
      rw [if_pos hcond]
      apply matchLoop_stable
      intro q hq hqs
      by_cases hq2 : q = (path, rootDir)
      · rw [hq2]
      · have := hmax q (by simp [hq]) hq2 hqs
        omega
    · have hmem2 : (k, r) ∈ rest := by
        rcases List.mem_cons.mp hmem with h1 | h1
        · exact absurd h1.symm heq
        · exact h1
      have hmax2 : ∀ p ∈ rest, p ≠ (k, r) → startsWith p.1 uri = true →
          (p.1.length : Int) < (k.length : Int) :=
        fun q hq => hmax q (by simp [hq])
      rw [matchLoop]
      by_cases hcond : (startsWith path uri && decide ((path.length : Int) > longest)) = true
      · rw [if_pos hcond]
        rw [Bool.and_eq_true] at hcond
        have hlt := hmax (path, rootDir) (by simp) heq hcond.1
        exact ih (some rootDir) (path.length : Int) hmem2 hmax2 hlt
      · rw [if_neg hcond]
        exact ih matched longest hmem2 hmax2 hl

/-- C7.  Longest-prefix route matching: when no key of the locations
table is a prefix of the URI, match_location returns none; when the
table holds an entry (k, r) with k a prefix of the URI and every other
entry whose key is a prefix has a strictly shorter key, match_location
returns r, the root bound to the key of greatest length. -/
theorem c7_longest_match (locs : List (List Nat × List Nat)) (uri : List Nat) :
    ((∀ p ∈ locs, ¬ startsWith p.1 uri = true) → match_location locs uri = none) ∧
    (∀ k r, (k, r) ∈ locs → startsWith k uri = true →
      (∀ p ∈ locs, p ≠ (k, r) → startsWith p.1 uri = true → p.1.length < k.length) →
      match_location locs uri = some r) := by
  constructor
  · intro h
    rw [match_location]
    exact matchLoop_stable uri locs none (-1)
      (fun p hp hs => absurd hs (h p hp))
  · intro k r hmem hpre hmax
    rw [match_location]
    exact matchLoop_picks uri locs k r none (-1) hmem hpre
      (fun p hp hne hs => by exact_mod_cast hmax p hp hne hs)
      (by omega)

/-- Witness for C7: with keys "/", "/img/" and "/img/icons/", the URI
"/img/icons/a.png" matches the root bound to "/img/icons/". -/
theorem c7_longest_match_witness :
    match_location
      [(str2bytes "/", str2bytes "R1"), (str2bytes "/img/", str2bytes "R2"),
       (str2bytes "/img/icons/", str2bytes "R3")]
      (str2bytes "/img/icons/a.png") = some (str2bytes "R3") := by
  refine (c7_longest_match
    [(str2bytes "/", str2bytes "R1"), (str2bytes "/img/", str2bytes "R2"),
     (str2bytes "/img/icons/", str2bytes "R3")]
    (str2bytes "/img/icons/a.png")).2
    (str2bytes "/img/icons/") (str2bytes "R3") ?_ ?_ ?_
  · decide
  · decide
  · intro p hp hne hs
    rcases List.mem_cons.mp hp with rfl | hp2
    · revert hne hs
      decide
    · rcases List.mem_cons.mp hp2 with rfl | hp3
      · revert hne hs
        decide
      · rcases List.mem_cons.mp hp3 with rfl | hp4
        · revert hne hs
          decide
        · simp at hp4

/-- C8, counterexample.  The claim says a request whose connection
header does not contain "keep-alive" marks the session for closure
regardless of whether resource loading succeeds or fails.  With
connection "close" and a failing resource load (fs returns none), the
dispatch sends the 404 response but leaves active = true: the
`self.active = False` assignment sits inside the try block after the
open call, so the except path never reaches it. -/
theorem c8_counterexample :
    dispatch (fun _ => none) []
      ⟨str2bytes "GET", str2bytes "/x", str2bytes "HTTP/1.1",
        [(str2bytes "connection", str2bytes "close")], []⟩ true = (.notFound, true) ∧
    containsSub kaBytes (pyLower (str2bytes "close")) = false :=
  ⟨rfl, rfl⟩

/-- C8 (amended).  Only on a successful resource load is the
connection header consulted: if the lower-cased connection header
value does not contain "keep-alive", the success response is sent
without the keep-alive header line and active becomes false.  On a
failed load, the not-found response is sent and active is left
unchanged, whatever the connection header says. -/
theorem c8_close_marking (fs : List Nat → Option (List Nat))
    (routes : List (List Nat × List Nat)) (req : HTTPMessage) (active : Bool) :
    (∀ body, fs (filePath routes req) = some body →
      containsSub kaBytes (pyLower ((dictGet req.headers connKey).getD [])) = false →
      dispatch fs routes req active = (.success false, false)) ∧
    (fs (filePath routes req) = none → dispatch fs routes req active = (.notFound, active)) := by
  constructor
  · intro body hfs hka
    rw [dispatch]
    simp only [hfs, hka]
    rfl
  · intro hfs
    rw [dispatch]
    simp only [hfs]

/-- Witness for C8 (amended): a successful load with connection
"close" clears active. -/
theorem c8_close_marking_witness :
    dispatch (fun _ => some []) []
      ⟨str2bytes "GET", str2bytes "/x", str2bytes "HTTP/1.1",
        [(str2bytes "connection", str2bytes "close")], []⟩ true =
      (.success false, false) :=
  (c8_close_marking (fun _ => some []) []
    ⟨str2bytes "GET", str2bytes "/x", str2bytes "HTTP/1.1",
      [(str2bytes "connection", str2bytes "close")], []⟩ true).1 [] rfl rfl

/-- C9, counterexample.  The claim says a successful
get_one_http_message removes exactly the bytes-consumed prefix
reported by the parse.  With a content-length of -100 the parse
reports consumed = 29 + 4 - 100 = -67; reduce_data(-67) is the Python
slice buffer[-67:], which on a 33-byte buffer removes nothing: the
pump returns the message while the whole buffer, already attributed to
a fully parsed message, stays in place. -/
theorem c9_counterexample :
    parse_message (str2bytes "GET / H\r\ncontent-length: -100\r\n\r\n") =
      .ok (some ⟨str2bytes "GET", str2bytes "/", str2bytes "H",
        [(str2bytes "content-length", str2bytes "-100")], []⟩, -67) ∧
    get_one_http_message ⟨str2bytes "GET / H\r\ncontent-length: -100\r\n\r\n"⟩ =
      .ok (⟨str2bytes "GET / H\r\ncontent-length: -100\r\n\r\n"⟩,
        some ⟨str2bytes "GET", str2bytes "/", str2bytes "H",
          [(str2bytes "content-length", str2bytes "-100")], []⟩) ∧
    str2bytes "GET / H\r\ncontent-length: -100\r\n\r\n" ≠ [] :=
  ⟨rfl, rfl, by decide⟩

/-- C9 (amended).  The data setter appends the new bytes to the end of
the buffer; reduce_data(n) for a natural n at most the buffer length
removes exactly the first n bytes, keeping the remaining suffix in
order; and a successful get_one_http_message whose parse reports a
non-negative consumed count c removes exactly the first c bytes (a
negative reported count, reachable through a negative content-length,
removes fewer). -/
theorem c9_buffer_invariant (dp : DataProvider) (newData : List Nat) (n : Nat)
    (M : HTTPMessage) (c : Int) :
    ((dp.setData newData).data = dp.data ++ newData) ∧
    (n ≤ dp.data.length → (dp.reduce_data (n : Int)).data = dp.data.drop n) ∧
    (parse_message dp.data = .ok (some M, c) → 0 ≤ c →
      get_one_http_message dp = .ok (⟨dp.data.drop c.toNat⟩, some M)) := by
  refine ⟨rfl, fun hn => ?_, fun h hc => ?_⟩
  · rw [DataProvider.reduce_data, pyDrop]
    rw [if_neg (by omega)]
    have : ((n : Nat) : Int).toNat = n := by omega
    rw [this]
  · rw [get_one_http_message]
    simp only [h]
    rw [DataProvider.reduce_data, pyDrop, if_neg (not_lt.mpr hc)]

/-- Witness for C9 (amended): an 18-byte request followed by 3 stray
bytes is consumed exactly up to its reported count 18. -/
theorem c9_buffer_invariant_witness :
    get_one_http_message ⟨str2bytes "GET / HTTP/1.1\r\n\r\nXYZ"⟩ =
      .ok (⟨(str2bytes "GET / HTTP/1.1\r\n\r\nXYZ").drop ((18 : Int)).toNat⟩,
        some ⟨str2bytes "GET", str2bytes "/", str2bytes "HTTP/1.1", [], []⟩) :=
  (c9_buffer_invariant ⟨str2bytes "GET / HTTP/1.1\r\n\r\nXYZ"⟩ [] 0
    ⟨str2bytes "GET", str2bytes "/", str2bytes "HTTP/1.1", [], []⟩ 18).2.2
    rfl (by decide)

theorem parseAfter_ok_none_elim {data : List Nat} {idx : Nat} {c : Int}
    (h : parseAfterHeaderLoc data idx = .ok (none, c)) : False := by
  rw [parseAfterHeaderLoc] at h
  match hp : pySplitCh 32 2 ((splitCRLF (data.take idx)).headD []) with
  | [] => rw [hp] at h; simp at h
  | [_] => rw [hp] at h; simp at h
  | [_, _] => rw [hp] at h; simp at h
  | [m, u, v] =>
    simp only [hp] at h
    match hh : parseHeaders ((splitCRLF (data.take idx)).tail) [] with
    | .error e => simp only [hh] at h; exact Except.noConfusion h
    | .ok H =>
      simp only [hh] at h
      rw [finishBody] at h
      match hg : dictGet H clKey with
      | none => simp only [hg] at h; simp at h
      | some s =>
        simp only [hg] at h
        match hi : pyInt s with
        | none => simp only [hi] at h; simp at h
        | some L =>
          simp only [hi] at h
          split at h
          · simp at h
          · simp at h
  | _ :: _ :: _ :: _ :: _ => rw [hp] at h; simp at h

/-- C10.  Totality of the parser at its public interface: on the empty
buffer parse_message returns (None, 0); on every nonempty buffer it
returns a (message, consumed) pair or exactly one of
IncompleteMessageError and InvalidMessageError — in particular it
never returns (None, _) on a nonempty buffer, and no other outcome
exists (header decoding is total byte-wise, and the content-length
int() failure is converted to InvalidMessageError). -/
theorem c10_parser_totality (data : List Nat) :
    (data = [] → parse_message data = .ok (none, 0)) ∧
    (data ≠ [] →
      (∃ m c, parse_message data = .ok (some m, c)) ∨
      parse_message data = .error .incompleteMessage ∨
      parse_message data = .error .invalidMessage) := by
  constructor
  · intro h
    subst h
    rfl
  · intro hne
    match hp : parse_message data with
    | .error .incompleteMessage => exact .inr (.inl rfl)
    | .error .invalidMessage => exact .inr (.inr rfl)
    | .ok (some m, c) => exact .inl ⟨m, c, rfl⟩
    | .ok (none, c) =>
      exfalso
      rw [parse_message, if_neg hne] at hp
      match hf : find sep data with
      | none => rw [hf] at hp; simp at hp
      | some idx =>
        rw [hf] at hp
        exact parseAfter_ok_none_elim hp

/-- Witness for C10: the empty-buffer case. -/
theorem c10_parser_totality_witness : parse_message [] = .ok (none, 0) :=
  (c10_parser_totality []).1 rfl

end WS
